import Mathlib

/-!
Verification development for the ad-group renaming application.
The definitions below are shallow embeddings of the TypeScript source:
the naming engine and table projection of the AssetTable component, the
group sorter and the mutation handlers of the ReviewPage component, and
the request shapes of the API client. Machine numbers are modelled as
Nat or Int, JS strings as Lean strings, and JS truthiness tests on
strings as emptiness tests.
-/

/-- Model of the Asset record: one source file, with its id, file name
(including extension) and its IMG or VID classification string. -/
structure Asset where
  id : String
  name : String
  asset_type : String
  deriving DecidableEq

/-- Model of the ProcessedAsset record: an Asset together with its
placement tag. Thumbnail and per-card text fields are presentation
data not read by any claim. -/
structure ProcessedAsset where
  asset : Asset
  placement : String
  deriving DecidableEq

/-- Model of the AdGroup record, with the fields read by the naming
engine, the sorter and the table projection. The optional date is a
string that is empty when absent, matching its use in a JS truthiness
test. -/
structure AdGroup where
  id : String
  ad_number : Nat
  campaign : String
  product : String
  format_token : String
  angle : String
  hook : String
  creator : String
  offer : Bool
  date : String
  assets : List ProcessedAsset
  deriving DecidableEq

/-- Model of the GroupedAssets snapshot: the groups plus the ungrouped
pool. -/
structure GroupedAssets where
  groups : List AdGroup
  ungrouped : List ProcessedAsset
  deriving DecidableEq

/-- Model of the JS expression String(n).padStart(3, zero) on a natural
number, as used for the ad number in both naming functions. -/
def pad3 (n : Nat) : String :=
  let s := Nat.repr n
  if s.length < 3 then String.mk (List.replicate (3 - s.length) '0') ++ s else s

/-- Model of Array.prototype.join with the underscore separator. -/
def joinU : List String → String
  | [] => ""
  | [p] => p
  | p :: q :: rest => p ++ "_" ++ joinU (q :: rest)

/-- Core of the model of String.prototype.replace with the global
pattern of two or more underscores and a single underscore as the
replacement: the boolean records whether the previously kept character
was an underscore, in which case later underscores of the same run are
dropped. Every maximal run of underscores is kept as exactly one
underscore, which is what the global replace produces, since runs of
length one are untouched by it. -/
def collapseAux : List Char → Bool → List Char
  | [], _ => []
  | c :: rest, prev =>
    if c = '_' then
      if prev then collapseAux rest true
      else '_' :: collapseAux rest true
    else c :: collapseAux rest false

/-- Model of the replace call of generateAdName: collapse every run of
two or more underscores to a single underscore. -/
def collapseUnderscores (s : String) : String :=
  String.mk (collapseAux s.data false)

/-- Parts pushed by generateAdName in AssetTable, in source order: the
padded ad number, then campaign and product when truthy, format_token
unconditionally, then angle, hook and creator when truthy, the Offer
literal when the offer flag is set, and the date when truthy. -/
def adParts (g : AdGroup) : List String :=
  [pad3 g.ad_number]
  ++ (if g.campaign = "" then [] else [g.campaign])
  ++ (if g.product = "" then [] else [g.product])
  ++ [g.format_token]
  ++ (if g.angle = "" then [] else [g.angle])
  ++ (if g.hook = "" then [] else [g.hook])
  ++ (if g.creator = "" then [] else [g.creator])
  ++ (if g.offer then ["Offer"] else [])
  ++ (if g.date = "" then [] else [g.date])

/-- Model of generateAdName in AssetTable: join the parts with
underscores, then remove accidental double underscores. -/
def generateAdName (g : AdGroup) : String :=
  collapseUnderscores (joinU (adParts g))

/-- Model of String.prototype.split at the dot separator, on the
character list of the string. The result is always a nonempty list of
segments, one more segment than there are dots. -/
def splitOnDot : List Char → List (List Char)
  | [] => [[]]
  | c :: rest =>
    if c = '.' then [] :: splitOnDot rest
    else
      match splitOnDot rest with
      | [] => [[c]]
      | s :: ss => (c :: s) :: ss

/-- Model of the ext computation of generateNewFileName: split the
original name at dots and pop the last segment; the or-fallback to the
empty string in the source only rewrites an empty pop result to itself,
since split never returns an empty array. -/
def jsExt (name : String) : String :=
  String.mk ((splitOnDot name.data).getLastD [])

/-- Model of generateNewFileName in AssetTable: the padded ad number,
the asset type of the asset itself, the placement, and the extension
taken from the original file name. -/
def generateNewFileName (g : AdGroup) (a : ProcessedAsset) : String :=
  pad3 g.ad_number ++ "_" ++ a.asset.asset_type ++ "_" ++ a.placement ++ "." ++ jsExt a.asset.name

example : pad3 3 = "003" := by decide
example : pad3 1234 = "1234" := by decide
example : jsExt "raw_clip.mov" = "mov" := by decide
example : jsExt "clip" = "clip" := by decide
example : jsExt "" = "" := by decide
example : jsExt "a.b.c" = "c" := by decide
example : collapseUnderscores "a__b___c_d" = "a_b_c_d" := by decide

/-- Decides whether a character list contains two adjacent underscores,
that is a match of the two-or-more-underscores pattern. -/
def hasDBU : List Char → Bool
  | [] => false
  | [_] => false
  | a :: b :: rest => (a = '_' && b = '_') || hasDBU (b :: rest)

lemma hasDBU_cons_of (c : Char) (rest : List Char) (h : hasDBU (c :: rest) = false) :
    hasDBU rest = false := by
  cases rest with
  | nil => rfl
  | cons b r2 => simpa [hasDBU] using And.right (by simpa [hasDBU] using h)

lemma collapseAux_eq_self : ∀ l : List Char, hasDBU l = false → collapseAux l false = l := by
  intro l
  induction l with
  | nil => intro _; rfl
  | cons c rest ih =>
    intro h
    cases rest with
    | nil =>
      by_cases hc : c = '_' <;> simp [collapseAux, hc]
    | cons b r2 =>
      have hrest : hasDBU (b :: r2) = false := hasDBU_cons_of c (b :: r2) h
      have hself : collapseAux (b :: r2) false = b :: r2 := ih hrest
      by_cases hc : c = '_'
      · have hb : b ≠ '_' := by
          intro hb
          simp [hasDBU, hc, hb] at h
        simp only [collapseAux, hc, if_pos rfl, if_true]
        simp only [collapseAux, hb, if_neg hb] at hself ⊢
        simpa using hself
      · simp only [collapseAux, if_neg hc]
        exact congrArg (c :: ·) hself

/-- Written from the words of claim C1: the name parts it lists, in its
order, each non-required part included exactly when non-empty, the
format token always, the Offer literal exactly when the offer flag is
true. -/
def claimPartsC1 (g : AdGroup) : List String :=
  [pad3 g.ad_number]
  ++ (if g.campaign = "" then [] else [g.campaign])
  ++ (if g.product = "" then [] else [g.product])
  ++ [g.format_token]
  ++ (if g.angle = "" then [] else [g.angle])
  ++ (if g.hook = "" then [] else [g.hook])
  ++ (if g.creator = "" then [] else [g.creator])
  ++ (if g.offer then ["Offer"] else [])
  ++ (if g.date = "" then [] else [g.date])

/-- Written from the words of claim C1: the listed parts joined by
single underscores, with no further processing. -/
def claimJoinNameC1 (g : AdGroup) : String :=
  joinU (claimPartsC1 g)

/-- Group of the end-to-end scenario of claim C1. -/
def gC1ex : AdGroup :=
  { id := "g3", ad_number := 3, campaign := "Q4Launch", product := "",
    format_token := "VID", angle := "Hook1", hook := "", creator := "Jess",
    offer := true, date := "", assets := [] }

/-- Group refuting the plain-join reading of claim C1: its campaign
contains two adjacent underscores. -/
def gC1bad : AdGroup :=
  { id := "g1", ad_number := 1, campaign := "a__b", product := "",
    format_token := "VID", angle := "", hook := "", creator := "",
    offer := false, date := "", assets := [] }

/-- C1 counterexample: on a group whose campaign is a__b the computed
name is not the plain underscore join of the listed parts, because the
source collapses the run of underscores inside the campaign value. -/
theorem c1_counterexample :
    generateAdName gC1bad = "001_a_b_VID" ∧
    claimJoinNameC1 gC1bad = "001_a__b_VID" ∧
    generateAdName gC1bad ≠ claimJoinNameC1 gC1bad := by decide

/-- C1 (amended): the computed group name equals the plain underscore
join of the listed parts whenever that join contains no two adjacent
underscores, in general the join is post-processed by collapsing every
run of two or more underscores to one; and on the group of the
end-to-end scenario the name is 003_Q4Launch_VID_Hook1_Jess_Offer. -/
theorem c1_amended_theorem :
    (∀ g : AdGroup, hasDBU (claimJoinNameC1 g).data = false →
      generateAdName g = claimJoinNameC1 g) ∧
    generateAdName gC1ex = "003_Q4Launch_VID_Hook1_Jess_Offer" := by
  constructor
  · intro g h
    show collapseUnderscores (joinU (adParts g)) = claimJoinNameC1 g
    have hparts : adParts g = claimPartsC1 g := rfl
    rw [hparts]
    show String.mk (collapseAux (claimJoinNameC1 g).data false) = claimJoinNameC1 g
    rw [collapseAux_eq_self _ h]
  · decide

/-- C1 witness: the end-to-end group satisfies the no-double-underscore
hypothesis and the amended equation holds on it. -/
theorem c1_amended_witness :
    hasDBU (claimJoinNameC1 gC1ex).data = false ∧
    generateAdName gC1ex = claimJoinNameC1 gC1ex :=
  ⟨by decide, c1_amended_theorem.1 gC1ex (by decide)⟩

lemma splitOnDot_ne_nil : ∀ l : List Char, splitOnDot l ≠ [] := by
  intro l
  cases l with
  | nil => simp [splitOnDot]
  | cons c rest =>
    by_cases hc : c = '.'
    · simp [splitOnDot, hc]
    · simp only [splitOnDot, if_neg hc]
      cases h : splitOnDot rest <;> simp

lemma splitOnDot_no_dot : ∀ l : List Char, '.' ∉ l → splitOnDot l = [l] := by
  intro l
  induction l with
  | nil => intro _; rfl
  | cons c rest ih =>
    intro h
    have hc : c ≠ '.' := by
      intro e
      exact h (by simp [e])
    have hr : '.' ∉ rest := fun hm => h (List.mem_cons_of_mem _ hm)
    simp [splitOnDot, if_neg hc, ih hr]

lemma two_le_splitOnDot_length : ∀ l : List Char, '.' ∈ l → 2 ≤ (splitOnDot l).length := by
  intro l
  induction l with
  | nil => intro h; cases h
  | cons c rest ih =>
    intro h
    by_cases hc : c = '.'
    · simp only [splitOnDot, if_pos hc, List.length_cons]
      have h1 : splitOnDot rest ≠ [] := splitOnDot_ne_nil rest
      have h2 : 0 < (splitOnDot rest).length := List.length_pos.mpr h1
      omega
    · have hr : '.' ∈ rest := by
        rcases List.mem_cons.mp h with h1 | h2
        · exact absurd h1.symm hc
        · exact h2
      simp only [splitOnDot, if_neg hc]
      cases hs : splitOnDot rest with
      | nil => exact absurd hs (splitOnDot_ne_nil rest)
      | cons s ss =>
        have h3 := ih hr
        rw [hs] at h3
        simp only [List.length_cons] at h3 ⊢
        omega

lemma takeWhile_append_all (p : Char → Bool) :
    ∀ xs ys : List Char, (∀ x ∈ xs, p x = true) →
      (xs ++ ys).takeWhile p = xs ++ ys.takeWhile p := by
  intro xs ys
  induction xs with
  | nil => intro _; rfl
  | cons x xs' ih =>
    intro h
    have hx : p x = true := h x (List.mem_cons_self _ _)
    simp [List.takeWhile_cons, hx, ih (fun w hw => h w (List.mem_cons_of_mem _ hw))]

lemma takeWhile_append_stop (p : Char → Bool) :
    ∀ xs ys : List Char, (∃ x ∈ xs, p x = false) →
      (xs ++ ys).takeWhile p = xs.takeWhile p := by
  intro xs ys
  induction xs with
  | nil =>
    rintro ⟨x, hx, _⟩
    cases hx
  | cons x xs' ih =>
    rintro ⟨z, hz, hpz⟩
    by_cases hx : p x = true
    · have hev : ∃ w ∈ xs', p w = false := by
        rcases List.mem_cons.mp hz with h1 | h2
        · rw [h1] at hpz
          rw [hpz] at hx
          cases hx
        · exact ⟨z, h2, hpz⟩
      simp [List.takeWhile_cons, hx, ih hev]
    · have hx' : p x = false := by simpa using hx
      simp [List.takeWhile_cons, hx']

lemma getLastD_of_ne_nil {α : Type} : ∀ (S : List α) (a b : α), S ≠ [] →
    S.getLastD a = S.getLastD b := by
  intro S a b h
  cases S with
  | nil => exact absurd rfl h
  | cons x xs =>
    have h2 : (x :: xs).getLast?.isSome := List.getLast?_isSome.mpr (by simp)
    rcases h3 : (x :: xs).getLast? with _ | y
    · rw [h3] at h2
      cases h2
    · simp [List.getLastD_eq_getLast?, h3]

lemma getLastD_splitOnDot : ∀ l : List Char,
    (splitOnDot l).getLastD [] =
      if '.' ∈ l then (l.reverse.takeWhile (fun c => c != '.')).reverse else l := by
  intro l
  induction l with
  | nil => simp [splitOnDot]
  | cons c rest ih =>
    by_cases hc : c = '.'
    · subst hc
      have hL : splitOnDot ('.' :: rest) = [] :: splitOnDot rest := by
        simp [splitOnDot]
      rw [hL, List.getLastD_cons, ih]
      rw [if_pos (show ('.' : Char) ∈ '.' :: rest by simp)]
      have hrev : ('.' :: rest).reverse = rest.reverse ++ ['.'] := by simp
      rw [hrev]
      by_cases hr : '.' ∈ rest
      · rw [if_pos hr]
        rw [takeWhile_append_stop _ _ _ ⟨'.', by simp [hr], by decide⟩]
      · rw [if_neg hr]
        rw [takeWhile_append_all _ _ _ ?hall]
        case hall =>
          intro x hx
          have hx2 : x ∈ rest := List.mem_reverse.mp hx
          have hx3 : x ≠ '.' := fun e => hr (e ▸ hx2)
          simpa [bne_iff_ne] using hx3
        simp
    · cases hs : splitOnDot rest with
      | nil => exact absurd hs (splitOnDot_ne_nil rest)
      | cons s ss =>
        have hL : splitOnDot (c :: rest) = (c :: s) :: ss := by
          simp [splitOnDot, if_neg hc, hs]
        cases ss with
        | nil =>
          have hnd : '.' ∉ rest := by
            intro hmem
            have h2 := two_le_splitOnDot_length rest hmem
            rw [hs] at h2
            simp at h2
          have hrs : rest = s := by
            have h3 := splitOnDot_no_dot rest hnd
            have h4 := h3.symm.trans hs
            injection h4 with h5 h6
          have hmem2 : '.' ∉ (c :: rest) := by
            intro hmem
            rcases List.mem_cons.mp hmem with h1 | h2
            · exact hc h1.symm
            · exact hnd h2
          rw [hL, if_neg hmem2]
          simp [List.getLastD_cons, hrs]
        | cons s2 ss2 =>
          have hdot : '.' ∈ rest := by
            by_contra hnd
            have h3 := splitOnDot_no_dot rest hnd
            rw [hs] at h3
            simp at h3
          have hmem2 : '.' ∈ (c :: rest) := List.mem_cons_of_mem _ hdot
          rw [hL, if_pos hmem2]
          have e1 : ((c :: s) :: s2 :: ss2).getLastD ([] : List Char) = (s2 :: ss2).getLastD (c :: s) :=
            List.getLastD_cons _ _ _
          have e2 : (s2 :: ss2).getLastD (c :: s) = (s2 :: ss2).getLastD s :=
            getLastD_of_ne_nil _ _ _ (by simp)
          have e3 : (s2 :: ss2).getLastD s = (s :: s2 :: ss2).getLastD [] :=
            (List.getLastD_cons _ _ _).symm
          rw [e1, e2, e3, ← hs, ih, if_pos hdot]
          have hrev : (c :: rest).reverse = rest.reverse ++ [c] := by simp
          rw [hrev, takeWhile_append_stop _ _ _ ⟨'.', by simp [hdot], by decide⟩]

/-- Written from the words of claim C2: the substring after the last
dot of a name, computed as the reversed final run of non-dot
characters; on a name without a dot this run is the whole name. -/
def afterLastDot (name : String) : String :=
  String.mk ((name.data.reverse.takeWhile (fun c => c != '.')).reverse)

lemma jsExt_eq (name : String) :
    jsExt name = if '.' ∈ name.data then afterLastDot name else name := by
  unfold jsExt afterLastDot
  rw [getLastD_splitOnDot]
  by_cases h : '.' ∈ name.data
  · rw [if_pos h, if_pos h]
  · rw [if_neg h, if_neg h]

/-- Group of the end-to-end file-name scenario of claim C2. -/
def gC2ex : AdGroup :=
  { id := "g12", ad_number := 12, campaign := "", product := "",
    format_token := "VID", angle := "", hook := "", creator := "",
    offer := false, date := "", assets := [] }

/-- Asset of the end-to-end file-name scenario of claim C2. -/
def aC2mov : ProcessedAsset :=
  { asset := { id := "a2", name := "raw_clip.mov", asset_type := "VID" },
    placement := "story" }

/-- Asset refuting the empty-extension reading of claim C2: its name
has no dot. -/
def aC2clip : ProcessedAsset :=
  { asset := { id := "a1", name := "clip", asset_type := "VID" },
    placement := "story" }

/-- C2 counterexample: on the dotless name clip the computed file name
ends in .clip, not in a trailing dot with an empty suffix as the claim
states, because split followed by pop returns the whole name when the
name has no dot. -/
theorem c2_counterexample :
    generateNewFileName gC2ex aC2clip = "012_VID_story.clip" ∧
    jsExt "clip" = "clip" ∧
    generateNewFileName gC2ex aC2clip ≠ "012_VID_story." := by decide

/-- C2 (amended): for every group and asset the computed file name is
the padded ad number, the asset type of the asset itself and the
placement, joined by underscores, then a dot and the extension, where
the extension is the substring after the last dot of the original name
when the name contains a dot and the whole original name when it does
not; and the end-to-end scenario asset raw_clip.mov in a group with ad
number 12 yields 012_VID_story.mov. -/
theorem c2_amended_theorem :
    (∀ (g : AdGroup) (a : ProcessedAsset),
      generateNewFileName g a =
        pad3 g.ad_number ++ "_" ++ a.asset.asset_type ++ "_" ++ a.placement ++ "." ++
          (if '.' ∈ a.asset.name.data then afterLastDot a.asset.name else a.asset.name)) ∧
    generateNewFileName gC2ex aC2mov = "012_VID_story.mov" := by
  constructor
  · intro g a
    unfold generateNewFileName
    rw [jsExt_eq]
  · decide

lemma collapseAux_head_ne (l : List Char) :
    collapseAux l true = [] ∨ ∃ c t, collapseAux l true = c :: t ∧ c ≠ '_' := by
  induction l with
  | nil => exact Or.inl rfl
  | cons c rest ih =>
    by_cases hc : c = '_'
    · simpa [collapseAux, hc] using ih
    · exact Or.inr ⟨c, collapseAux rest false, by simp [collapseAux, hc], hc⟩

lemma hasDBU_collapseAux : ∀ (l : List Char) (b : Bool), hasDBU (collapseAux l b) = false := by
  intro l
  induction l with
  | nil => intro b; rfl
  | cons c rest ih =>
    intro b
    by_cases hc : c = '_'
    · cases b
      · have he : collapseAux (c :: rest) false = '_' :: collapseAux rest true := by
          simp [collapseAux, hc]
        rw [he]
        rcases collapseAux_head_ne rest with h | ⟨d, t, h, hd⟩
        · rw [h]
          rfl
        · rw [h]
          have h2 := ih true
          rw [h] at h2
          simp [hasDBU, hd, h2]
      · have he : collapseAux (c :: rest) true = collapseAux rest true := by
          simp [collapseAux, hc]
        rw [he]
        exact ih true
    · have he : collapseAux (c :: rest) b = c :: collapseAux rest false := by
        simp [collapseAux, hc]
      rw [he]
      cases hx : collapseAux rest false with
      | nil => rfl
      | cons d t =>
        have h2 := ih false
        rw [hx] at h2
        simp [hasDBU, hc, h2]

lemma collapseAux_append_clean : ∀ (l1 l2 : List Char), (∀ c ∈ l1, c ≠ '_') →
    collapseAux (l1 ++ l2) false = l1 ++ collapseAux l2 false := by
  intro l1 l2
  induction l1 with
  | nil => intro _; rfl
  | cons c r ih =>
    intro h
    have hc : c ≠ '_' := h c (List.mem_cons_self _ _)
    simp [collapseAux, hc, ih (fun x hx => h x (List.mem_cons_of_mem _ hx))]

/-- Decides whether a character is an ASCII digit: the class matched by
the digit pattern of the sorter, and the characters produced by the JS
conversion String(n) on a natural number. -/
def isDigitCh (c : Char) : Bool := 48 ≤ c.toNat && c.toNat ≤ 57

lemma digitChar_isDigitCh (m : Nat) (h : m < 10) : isDigitCh (Nat.digitChar m) = true := by
  interval_cases m <;> decide

lemma toDigitsCore_digits :
    ∀ (fuel n : Nat) (acc : List Char), (∀ c ∈ acc, isDigitCh c = true) →
      ∀ c ∈ Nat.toDigitsCore 10 fuel n acc, isDigitCh c = true := by
  intro fuel
  induction fuel with
  | zero =>
    intro n acc hacc
    simpa [Nat.toDigitsCore] using hacc
  | succ f ih =>
    intro n acc hacc
    simp only [Nat.toDigitsCore]
    split
    · intro c hc
      rcases List.mem_cons.mp hc with h1 | h2
      · rw [h1]
        exact digitChar_isDigitCh _ (Nat.mod_lt _ (by norm_num))
      · exact hacc c h2
    · refine ih (n / 10) (Nat.digitChar (n % 10) :: acc) ?_
      intro c hc
      rcases List.mem_cons.mp hc with h1 | h2
      · rw [h1]
        exact digitChar_isDigitCh _ (Nat.mod_lt _ (by norm_num))
      · exact hacc c h2

lemma repr_digits (n : Nat) : ∀ c ∈ (Nat.repr n).data, isDigitCh c = true := by
  intro c hc
  have h0 : (Nat.repr n).data = Nat.toDigitsCore 10 (n + 1) n [] := rfl
  rw [h0] at hc
  exact toDigitsCore_digits (n + 1) n [] (by intro x hx; cases hx) c hc

lemma pad3_digits (n : Nat) : ∀ c ∈ (pad3 n).data, isDigitCh c = true := by
  intro c hc
  simp only [pad3] at hc
  split at hc
  · rw [String.data_append] at hc
    rcases List.mem_append.mp hc with h1 | h2
    · have h3 : c = '0' := List.eq_of_mem_replicate h1
      rw [h3]
      decide
    · exact repr_digits n c h2
  · exact repr_digits n c hc

lemma joinU_cons_data (p : String) (ps : List String) :
    ∃ t, (joinU (p :: ps)).data = p.data ++ t := by
  cases ps with
  | nil => exact ⟨[], by simp [joinU]⟩
  | cons q rest =>
    refine ⟨"_".data ++ (joinU (q :: rest)).data, ?_⟩
    show ((p ++ "_") ++ joinU (q :: rest)).data = _
    rw [String.data_append, String.data_append, List.append_assoc]

lemma collapse_join_head_clean (p : String) (ps : List String)
    (h : ∀ c ∈ p.data, c ≠ '_') :
    ∃ t, (collapseUnderscores (joinU (p :: ps))).data = p.data ++ t := by
  obtain ⟨t, ht⟩ := joinU_cons_data p ps
  refine ⟨collapseAux t false, ?_⟩
  show collapseAux (joinU (p :: ps)).data false = _
  rw [ht, collapseAux_append_clean _ _ h]

/-- C7: for every group the computed name contains no two adjacent
underscores, and its character list starts with the characters of the
zero-padded ad number. -/
theorem c7_theorem : ∀ g : AdGroup,
    hasDBU (generateAdName g).data = false ∧
    ∃ t, (generateAdName g).data = (pad3 g.ad_number).data ++ t := by
  intro g
  have hclean : ∀ c ∈ (pad3 g.ad_number).data, c ≠ '_' := by
    intro c hc he
    have hd := pad3_digits g.ad_number c hc
    rw [he] at hd
    exact absurd hd (by decide)
  constructor
  · exact hasDBU_collapseAux _ false
  · have hsplit : adParts g = pad3 g.ad_number ::
        ((if g.campaign = "" then [] else [g.campaign])
        ++ (if g.product = "" then [] else [g.product])
        ++ [g.format_token]
        ++ (if g.angle = "" then [] else [g.angle])
        ++ (if g.hook = "" then [] else [g.hook])
        ++ (if g.creator = "" then [] else [g.creator])
        ++ (if g.offer then ["Offer"] else [])
        ++ (if g.date = "" then [] else [g.date])) := rfl
    show ∃ t, (collapseUnderscores (joinU (adParts g))).data = (pad3 g.ad_number).data ++ t
    rw [hsplit]
    exact collapse_join_head_clean _ _ hclean

/-- Number of positions of a character list at which the pattern occurs
as a contiguous segment. -/
def countOcc (pat : List Char) : List Char → Nat
  | [] => if pat = [] then 1 else 0
  | c :: rest => (if pat.isPrefixOf (c :: rest) then 1 else 0) + countOcc pat rest

/-- Character list of the Offer literal. -/
def offerPat : List Char := ['O', 'f', 'f', 'e', 'r']

lemma isPrefixOf_collapseAux :
    ∀ (rest pr : List Char), (∀ x ∈ pr, x ≠ '_') →
      pr.isPrefixOf (collapseAux rest false) = pr.isPrefixOf rest := by
  intro rest
  induction rest with
  | nil => intro pr _; rfl
  | cons c r2 ih =>
    intro pr hpr
    by_cases hc : c = '_'
    · subst hc
      have he : collapseAux ('_' :: r2) false = '_' :: collapseAux r2 true := by
        simp [collapseAux]
      rw [he]
      cases pr with
      | nil => rfl
      | cons q qr =>
        have hq : q ≠ '_' := hpr q (List.mem_cons_self _ _)
        have hqb : (q == '_') = false := beq_eq_false_iff_ne.mpr hq
        simp [List.isPrefixOf_cons₂, hqb]
    · have he : collapseAux (c :: r2) false = c :: collapseAux r2 false := by
        simp [collapseAux, hc]
      rw [he]
      cases pr with
      | nil => rfl
      | cons q qr =>
        have hqr : ∀ x ∈ qr, x ≠ '_' := fun x hx => hpr x (List.mem_cons_of_mem _ hx)
        simp [List.isPrefixOf_cons₂, ih qr hqr]

lemma countOcc_collapseAux (p : Char) (pr : List Char)
    (hp : p ≠ '_') (hpr : ∀ x ∈ pr, x ≠ '_') :
    ∀ (l : List Char) (b : Bool),
      countOcc (p :: pr) (collapseAux l b) = countOcc (p :: pr) l := by
  intro l
  induction l with
  | nil => intro b; rfl
  | cons c rest ih =>
    intro b
    by_cases hc : c = '_'
    · subst hc
      have hpb : (p == '_') = false := beq_eq_false_iff_ne.mpr hp
      have hcu : countOcc (p :: pr) ('_' :: rest) = countOcc (p :: pr) rest := by
        simp [countOcc, List.isPrefixOf_cons₂, hpb]
      cases b
      · have he : collapseAux ('_' :: rest) false = '_' :: collapseAux rest true := by
          simp [collapseAux]
        rw [he, hcu]
        have h2 : countOcc (p :: pr) ('_' :: collapseAux rest true) =
            countOcc (p :: pr) (collapseAux rest true) := by
          simp [countOcc, List.isPrefixOf_cons₂, hpb]
        rw [h2, ih true]
      · have he : collapseAux ('_' :: rest) true = collapseAux rest true := by
          simp [collapseAux]
        rw [he, hcu, ih true]
    · have he : collapseAux (c :: rest) b = c :: collapseAux rest false := by
        simp [collapseAux, hc]
      rw [he]
      simp only [countOcc, List.isPrefixOf_cons₂, isPrefixOf_collapseAux rest pr hpr, ih false]

lemma isPrefixOf_append_sep :
    ∀ (pat A B : List Char), (∀ x ∈ pat, x ≠ '_') →
      pat.isPrefixOf (A ++ '_' :: B) = pat.isPrefixOf A := by
  intro pat
  induction pat with
  | nil => intro A B _; simp [List.isPrefixOf]
  | cons q qr ih =>
    intro A B hq
    cases A with
    | nil =>
      have hqn : q ≠ '_' := hq q (List.mem_cons_self _ _)
      have hqb : (q == '_') = false := beq_eq_false_iff_ne.mpr hqn
      simp [List.isPrefixOf_cons₂, hqb, List.isPrefixOf]
    | cons a A2 =>
      have hqr : ∀ x ∈ qr, x ≠ '_' := fun x hx => hq x (List.mem_cons_of_mem _ hx)
      simp [List.isPrefixOf_cons₂, ih A2 B hqr]

lemma countOcc_append_sep (p : Char) (pr : List Char)
    (hp : p ≠ '_') (hpr : ∀ x ∈ pr, x ≠ '_') :
    ∀ (A B : List Char),
      countOcc (p :: pr) (A ++ '_' :: B) = countOcc (p :: pr) A + countOcc (p :: pr) B := by
  have hall : ∀ x ∈ (p :: pr), x ≠ '_' := by
    intro x hx
    rcases List.mem_cons.mp hx with h1 | h2
    · rw [h1]; exact hp
    · exact hpr x h2
  intro A
  induction A with
  | nil =>
    intro B
    have hpb : (p == '_') = false := beq_eq_false_iff_ne.mpr hp
    simp [countOcc, List.isPrefixOf_cons₂, hpb]
  | cons a A2 ih =>
    intro B
    have h1 : (a :: A2) ++ '_' :: B = a :: (A2 ++ '_' :: B) := rfl
    rw [h1]
    simp only [countOcc]
    rw [show a :: (A2 ++ '_' :: B) = (a :: A2) ++ '_' :: B from rfl]
    rw [isPrefixOf_append_sep _ _ _ hall, ih B]
    omega

lemma countOcc_joinU :
    ∀ ps : List String,
      countOcc offerPat (joinU ps).data =
        (ps.map (fun s => countOcc offerPat s.data)).sum := by
  intro ps
  induction ps with
  | nil => simp [joinU, countOcc, offerPat]
  | cons p ps2 ih =>
    cases ps2 with
    | nil => simp [joinU]
    | cons q rest =>
      have hdata : (joinU (p :: q :: rest)).data =
          p.data ++ '_' :: (joinU (q :: rest)).data := by
        show ((p ++ "_") ++ joinU (q :: rest)).data = _
        rw [String.data_append, String.data_append]
        simp
      rw [show joinU (p :: q :: rest) = (p ++ "_") ++ joinU (q :: rest) from rfl] at hdata ⊢
      rw [hdata]
      rw [show offerPat = 'O' :: ['f', 'f', 'e', 'r'] from rfl]
      rw [countOcc_append_sep 'O' ['f', 'f', 'e', 'r'] (by decide) (by decide)]
      rw [show ('O' :: ['f', 'f', 'e', 'r'] : List Char) = offerPat from rfl]
      rw [ih]
      simp

lemma countOcc_zero_of_digits :
    ∀ l : List Char, (∀ c ∈ l, isDigitCh c = true) → countOcc offerPat l = 0 := by
  intro l
  induction l with
  | nil => intro _; rfl
  | cons c rest ih =>
    intro h
    have hc : isDigitCh c = true := h c (List.mem_cons_self _ _)
    have hne : ('O' == c) = false := by
      refine beq_eq_false_iff_ne.mpr ?_
      intro e
      rw [← e] at hc
      exact absurd hc (by decide)
    have hr : countOcc offerPat rest = 0 := ih (fun x hx => h x (List.mem_cons_of_mem _ hx))
    have hr2 : countOcc ['O', 'f', 'f', 'e', 'r'] rest = 0 := hr
    simp [countOcc, offerPat, List.isPrefixOf_cons₂, hne, hr2]

lemma countOcc_pad3 (n : Nat) : countOcc offerPat (pad3 n).data = 0 :=
  countOcc_zero_of_digits _ (pad3_digits n)

/-- Metadata fields of a group whose values flow into the computed
name besides the ad number and the Offer literal. -/
def nameFields (g : AdGroup) : List String :=
  [g.campaign, g.product, g.format_token, g.angle, g.hook, g.creator, g.date]

/-- Parts of the computed name that precede the Offer literal: the
padded ad number and the included metadata fields through creator. -/
def frontPartsC8 (g : AdGroup) : List String :=
  [pad3 g.ad_number]
  ++ (if g.campaign = "" then [] else [g.campaign])
  ++ (if g.product = "" then [] else [g.product])
  ++ [g.format_token]
  ++ (if g.angle = "" then [] else [g.angle])
  ++ (if g.hook = "" then [] else [g.hook])
  ++ (if g.creator = "" then [] else [g.creator])

lemma sum_if_block (c : Prop) [Decidable c] (s : String)
    (h : countOcc offerPat s.data = 0) :
    ((if c then ([] : List String) else [s]).map (fun x => countOcc offerPat x.data)).sum = 0 := by
  split <;> simp [h]

/-- Group refuting the never-appears part of claim C8: its offer flag
is false but its campaign value is the Offer literal itself. -/
def gC8bad : AdGroup :=
  { id := "g8", ad_number := 1, campaign := "Offer", product := "",
    format_token := "VID", angle := "", hook := "", creator := "",
    offer := false, date := "", assets := [] }

/-- C8 counterexample: a group with offer false whose campaign value is
Offer computes a name in which the Offer literal occurs once. -/
theorem c8_counterexample :
    gC8bad.offer = false ∧
    generateAdName gC8bad = "001_Offer_VID" ∧
    countOcc offerPat (generateAdName gC8bad).data = 1 := by decide

/-- C8 (amended): for every group none of whose metadata field values
contains the Offer literal as a segment, the literal occurs in the
computed name exactly once when the offer flag is true and never when
it is false; the parts list places the literal directly after the
front parts, whose last element is the creator whenever the creator
field is non-empty, and before the optional date. -/
theorem c8_amended_theorem :
    ∀ g : AdGroup, (∀ s ∈ nameFields g, countOcc offerPat s.data = 0) →
      countOcc offerPat (generateAdName g).data = (if g.offer then 1 else 0) ∧
      adParts g = frontPartsC8 g ++ (if g.offer then ["Offer"] else [])
        ++ (if g.date = "" then [] else [g.date]) ∧
      (g.creator ≠ "" → (frontPartsC8 g).getLast? = some g.creator) := by
  intro g h
  have h1 : countOcc offerPat g.campaign.data = 0 := h _ (by simp [nameFields])
  have h2 : countOcc offerPat g.product.data = 0 := h _ (by simp [nameFields])
  have h3 : countOcc offerPat g.format_token.data = 0 := h _ (by simp [nameFields])
  have h4 : countOcc offerPat g.angle.data = 0 := h _ (by simp [nameFields])
  have h5 : countOcc offerPat g.hook.data = 0 := h _ (by simp [nameFields])
  have h6 : countOcc offerPat g.creator.data = 0 := h _ (by simp [nameFields])
  have h7 : countOcc offerPat g.date.data = 0 := h _ (by simp [nameFields])
  refine ⟨?_, ?_, ?_⟩
  · have hcoll : countOcc offerPat (generateAdName g).data =
        countOcc offerPat (joinU (adParts g)).data := by
      show countOcc offerPat (collapseAux (joinU (adParts g)).data false) = _
      rw [show offerPat = 'O' :: ['f', 'f', 'e', 'r'] from rfl]
      rw [countOcc_collapseAux 'O' ['f', 'f', 'e', 'r'] (by decide) (by decide)]
    rw [hcoll, countOcc_joinU]
    unfold adParts
    simp only [List.map_append, List.sum_append, List.map_cons, List.map_nil,
      List.sum_cons, List.sum_nil]
    rw [countOcc_pad3]
    rw [show ((if g.campaign = "" then ([] : List String) else [g.campaign]).map
      (fun x => countOcc offerPat x.data)).sum = 0 from sum_if_block _ _ h1]
    rw [show ((if g.product = "" then ([] : List String) else [g.product]).map
      (fun x => countOcc offerPat x.data)).sum = 0 from sum_if_block _ _ h2]
    rw [show ((if g.angle = "" then ([] : List String) else [g.angle]).map
      (fun x => countOcc offerPat x.data)).sum = 0 from sum_if_block _ _ h4]
    rw [show ((if g.hook = "" then ([] : List String) else [g.hook]).map
      (fun x => countOcc offerPat x.data)).sum = 0 from sum_if_block _ _ h5]
    rw [show ((if g.creator = "" then ([] : List String) else [g.creator]).map
      (fun x => countOcc offerPat x.data)).sum = 0 from sum_if_block _ _ h6]
    rw [show ((if g.date = "" then ([] : List String) else [g.date]).map
      (fun x => countOcc offerPat x.data)).sum = 0 from sum_if_block _ _ h7]
    have ho : ((if g.offer then ["Offer"] else ([] : List String)).map
        (fun x => countOcc offerPat x.data)).sum = if g.offer then 1 else 0 := by
      cases g.offer
      · simp
      · simp
        decide
    rw [ho, h3]
    cases g.offer <;> simp
  · simp [adParts, frontPartsC8, List.append_assoc]
  · intro hcr
    unfold frontPartsC8
    rw [if_neg hcr]
    exact List.getLast?_concat _

/-- Group exercising the offer-true branch of the amended claim C8. -/
def gC8w : AdGroup :=
  { id := "g9", ad_number := 3, campaign := "Q4", product := "",
    format_token := "VID", angle := "A1", hook := "", creator := "Jess",
    offer := true, date := "", assets := [] }

/-- C8 witness: the no-Offer-in-fields hypothesis holds for the sample
group and the amended statement follows on it. -/
theorem c8_amended_witness :
    (∀ s ∈ nameFields gC8w, countOcc offerPat s.data = 0) ∧
    (countOcc offerPat (generateAdName gC8w).data = (if gC8w.offer then 1 else 0) ∧
      adParts gC8w = frontPartsC8 gC8w ++ (if gC8w.offer then ["Offer"] else [])
        ++ (if gC8w.date = "" then [] else [gC8w.date]) ∧
      (gC8w.creator ≠ "" → (frontPartsC8 gC8w).getLast? = some gC8w.creator)) :=
  ⟨by decide, c8_amended_theorem gC8w (by decide)⟩

/-- Model of the helper getFirstFilename of ReviewPage: the file name
of the first asset of the group, empty when the group has no assets. -/
def getFirstFilename (g : AdGroup) : String :=
  match g.assets with
  | [] => ""
  | a :: _ => a.asset.name

/-- Value of a list of ASCII digit characters read in base ten: the
model of parseInt applied to the matched digit run. -/
def digitsVal (ds : List Char) : Nat :=
  ds.foldl (fun n c => 10 * n + (c.toNat - 48)) 0

/-- Model of extractNumber of ReviewPage: match a leading run of ASCII
digits and parse it; none models the Infinity the source uses when the
name does not start with a digit. -/
def extractNumber (s : String) : Option Nat :=
  match s.data.takeWhile isDigitCh with
  | [] => none
  | ds => some (digitsVal ds)

/-- Model of localeCompare as the sorter applies it to ASCII file
names: lexicographic comparison of the character lists by code point,
returning a negative, zero or positive integer. -/
def lexCmp : List Char → List Char → Int
  | [], [] => 0
  | [], _ :: _ => -1
  | _ :: _, [] => 1
  | a :: as, b :: bs =>
    if a.toNat < b.toNat then -1
    else if b.toNat < a.toNat then 1
    else lexCmp as bs

/-- Model of the comparator of sortedGroups in ReviewPage: numeric
comparison of the leading numbers when both first file names have one,
locale comparison of the full names otherwise. -/
def compareGroups (a b : AdGroup) : Int :=
  match extractNumber (getFirstFilename a), extractNumber (getFirstFilename b) with
  | some na, some nb => (na : Int) - nb
  | _, _ => lexCmp (getFirstFilename a).data (getFirstFilename b).data

/-- Order realised by the comparator: the pairs it maps to a
non-positive number, which is the order a stable JS sort produces. -/
def groupLe (a b : AdGroup) : Prop := compareGroups a b ≤ 0

instance : DecidableRel groupLe := fun a b => inferInstanceAs (Decidable (compareGroups a b ≤ 0))

/-- Model of sortedGroups of ReviewPage: a stable sort of a copy of the
group list by the comparator. -/
def sortGroups (gs : List AdGroup) : List AdGroup :=
  List.insertionSort groupLe gs

lemma compareGroups_else (a b : AdGroup)
    (h : extractNumber (getFirstFilename a) = none ∨ extractNumber (getFirstFilename b) = none) :
    compareGroups a b = lexCmp (getFirstFilename a).data (getFirstFilename b).data := by
  unfold compareGroups
  rcases hA : extractNumber (getFirstFilename a) with _ | na <;>
    rcases hB : extractNumber (getFirstFilename b) with _ | nb <;>
      first
      | rfl
      | (rcases h with h | h <;> simp [hA, hB] at h)

lemma compareGroups_num (a b : AdGroup) (na nb : Nat)
    (ha : extractNumber (getFirstFilename a) = some na)
    (hb : extractNumber (getFirstFilename b) = some nb) :
    compareGroups a b = (na : Int) - nb := by
  unfold compareGroups
  rw [ha, hb]

lemma lexCmp_nil_le (l : List Char) : lexCmp [] l ≤ 0 := by
  cases l <;> simp [lexCmp]

lemma lexCmp_nonneg_total : ∀ a b : List Char, lexCmp a b ≤ 0 ∨ lexCmp b a ≤ 0 := by
  intro a
  induction a with
  | nil => intro b; exact Or.inl (lexCmp_nil_le b)
  | cons x xs ih =>
    intro b
    cases b with
    | nil => exact Or.inr (lexCmp_nil_le _)
    | cons y ys =>
      by_cases hxy : x.toNat < y.toNat
      · left
        simp [lexCmp, hxy]
      · by_cases hyx : y.toNat < x.toNat
        · right
          simp [lexCmp, hyx]
        · rcases ih ys with h | h
          · left
            simpa [lexCmp, hxy, hyx] using h
          · right
            simpa [lexCmp, hxy, hyx] using h

lemma lexCmp_le_head (x y : Char) (xs ys : List Char)
    (h : lexCmp (x :: xs) (y :: ys) ≤ 0) : x.toNat ≤ y.toNat := by
  simp only [lexCmp] at h
  by_cases hxy : x.toNat < y.toNat
  · omega
  · by_cases hyx : y.toNat < x.toNat
    · rw [if_neg hxy, if_pos hyx] at h
      exact absurd h (by norm_num)
    · omega

lemma lexCmp_lt_head (x y : Char) (xs ys : List Char) (h : x.toNat < y.toNat) :
    lexCmp (x :: xs) (y :: ys) ≤ 0 := by
  simp only [lexCmp, if_pos h]
  norm_num

lemma lexCmp_trans : ∀ a b c : List Char,
    lexCmp a b ≤ 0 → lexCmp b c ≤ 0 → lexCmp a c ≤ 0 := by
  intro a
  induction a with
  | nil => intro b c _ _; exact lexCmp_nil_le c
  | cons x xs ih =>
    intro b c h1 h2
    cases b with
    | nil => simp [lexCmp] at h1
    | cons y ys =>
      cases c with
      | nil => simp [lexCmp] at h2
      | cons z zs =>
        simp only [lexCmp] at h1 h2 ⊢
        by_cases hxy : x.toNat < y.toNat
        · by_cases hyz : y.toNat < z.toNat
          · rw [if_pos (by omega : x.toNat < z.toNat)]
            norm_num
          · by_cases hzy : z.toNat < y.toNat
            · rw [if_neg hyz, if_pos hzy] at h2
              exact absurd h2 (by norm_num)
            · rw [if_pos (by omega : x.toNat < z.toNat)]
              norm_num
        · by_cases hyx : y.toNat < x.toNat
          · rw [if_neg hxy, if_pos hyx] at h1
            exact absurd h1 (by norm_num)
          · rw [if_neg hxy, if_neg hyx] at h1
            by_cases hyz : y.toNat < z.toNat
            · rw [if_pos (by omega : x.toNat < z.toNat)]
              norm_num
            · by_cases hzy : z.toNat < y.toNat
              · rw [if_neg hyz, if_pos hzy] at h2
                exact absurd h2 (by norm_num)
              · rw [if_neg hyz, if_neg hzy] at h2
                rw [if_neg (by omega : ¬ x.toNat < z.toNat),
                  if_neg (by omega : ¬ z.toNat < x.toNat)]
                exact ih ys zs h1 h2

lemma isDigitCh_iff (c : Char) : isDigitCh c = true ↔ 48 ≤ c.toNat ∧ c.toNat ≤ 57 := by
  simp [isDigitCh, Bool.and_eq_true, decide_eq_true_eq]

lemma extractNumber_some_head (s : String) (n : Nat)
    (h : extractNumber s = some n) :
    ∃ c cs, s.data = c :: cs ∧ isDigitCh c = true := by
  unfold extractNumber at h
  cases hd : s.data with
  | nil =>
    rw [hd] at h
    simp [List.takeWhile] at h
  | cons c cs =>
    rw [hd] at h
    by_cases hc : isDigitCh c = true
    · exact ⟨c, cs, rfl, hc⟩
    · rw [List.takeWhile_cons] at h
      rw [if_neg (by simpa using hc)] at h
      cases h

lemma extractNumber_none_head (s : String) (h : extractNumber s = none) :
    s.data = [] ∨ ∃ c cs, s.data = c :: cs ∧ isDigitCh c = false := by
  unfold extractNumber at h
  cases hd : s.data with
  | nil => exact Or.inl rfl
  | cons c cs =>
    rw [hd] at h
    by_cases hc : isDigitCh c = true
    · rw [List.takeWhile_cons, if_pos hc] at h
      cases h
    · exact Or.inr ⟨c, cs, rfl, by simpa using hc⟩

lemma groupLe_total : ∀ a b : AdGroup, groupLe a b ∨ groupLe b a := by
  intro a b
  unfold groupLe
  cases ha : extractNumber (getFirstFilename a) with
  | some na =>
    cases hb : extractNumber (getFirstFilename b) with
    | some nb =>
      rw [compareGroups_num a b na nb ha hb, compareGroups_num b a nb na hb ha]
      omega
    | none =>
      rw [compareGroups_else a b (Or.inr hb), compareGroups_else b a (Or.inl hb)]
      exact lexCmp_nonneg_total _ _
  | none =>
    rw [compareGroups_else a b (Or.inl ha), compareGroups_else b a (Or.inr ha)]
    exact lexCmp_nonneg_total _ _

lemma groupLe_trans : ∀ a b c : AdGroup, groupLe a b → groupLe b c → groupLe a c := by
  intro a b c h1 h2
  unfold groupLe at h1 h2 ⊢
  cases ha : extractNumber (getFirstFilename a) with
  | some na =>
    cases hc : extractNumber (getFirstFilename c) with
    | some nc =>
      cases hb : extractNumber (getFirstFilename b) with
      | some nb =>
        rw [compareGroups_num a b na nb ha hb] at h1
        rw [compareGroups_num b c nb nc hb hc] at h2
        rw [compareGroups_num a c na nc ha hc]
        omega
      | none =>
        rw [compareGroups_else a b (Or.inr hb)] at h1
        rw [compareGroups_else b c (Or.inl hb)] at h2
        obtain ⟨a0, as0, hda, hda2⟩ := extractNumber_some_head _ _ ha
        obtain ⟨c0, cs0, hdc, hdc2⟩ := extractNumber_some_head _ _ hc
        rcases extractNumber_none_head _ hb with hbn | ⟨b0, bs0, hdb, hdb2⟩
        · rw [hda, hbn] at h1
          simp [lexCmp] at h1
        · rw [hda, hdb] at h1
          rw [hdb, hdc] at h2
          have e1 := lexCmp_le_head _ _ _ _ h1
          have e2 := lexCmp_le_head _ _ _ _ h2
          have r1 := (isDigitCh_iff a0).mp hda2
          have r3 := (isDigitCh_iff c0).mp hdc2
          have r2 : ¬ (48 ≤ b0.toNat ∧ b0.toNat ≤ 57) := by
            intro hr
            rw [(isDigitCh_iff b0).mpr hr] at hdb2
            cases hdb2
          omega
    | none =>
      rw [compareGroups_else a c (Or.inr hc)]
      cases hb : extractNumber (getFirstFilename b) with
      | some nb =>
        rw [compareGroups_num a b na nb ha hb] at h1
        rw [compareGroups_else b c (Or.inr hc)] at h2
        obtain ⟨a0, as0, hda, hda2⟩ := extractNumber_some_head _ _ ha
        obtain ⟨b0, bs0, hdb, hdb2⟩ := extractNumber_some_head _ _ hb
        rw [hda]
        rcases extractNumber_none_head _ hc with hcn | ⟨c0, cs0, hdc, hdc2⟩
        · rw [hdb, hcn] at h2
          simp [lexCmp] at h2
        · rw [hdb, hdc] at h2
          rw [hdc]
          have e2 := lexCmp_le_head _ _ _ _ h2
          have r1 := (isDigitCh_iff a0).mp hda2
          have r2 := (isDigitCh_iff b0).mp hdb2
          have r3 : ¬ (48 ≤ c0.toNat ∧ c0.toNat ≤ 57) := by
            intro hr
            rw [(isDigitCh_iff c0).mpr hr] at hdc2
            cases hdc2
          apply lexCmp_lt_head
          omega
      | none =>
        rw [compareGroups_else a b (Or.inr hb)] at h1
        rw [compareGroups_else b c (Or.inl hb)] at h2
        exact lexCmp_trans _ _ _ h1 h2
  | none =>
    rw [compareGroups_else a c (Or.inl ha)]
    rw [compareGroups_else a b (Or.inl ha)] at h1
    cases hb : extractNumber (getFirstFilename b) with
    | some nb =>
      cases hc : extractNumber (getFirstFilename c) with
      | some nc =>
        rw [compareGroups_num b c nb nc hb hc] at h2
        obtain ⟨b0, bs0, hdb, hdb2⟩ := extractNumber_some_head _ _ hb
        obtain ⟨c0, cs0, hdc, hdc2⟩ := extractNumber_some_head _ _ hc
        rcases extractNumber_none_head _ ha with han | ⟨a0, as0, hda, hda2⟩
        · rw [han]
          exact lexCmp_nil_le _
        · rw [hda, hdb] at h1
          rw [hda, hdc]
          have e1 := lexCmp_le_head _ _ _ _ h1
          have r2 := (isDigitCh_iff b0).mp hdb2
          have r3 := (isDigitCh_iff c0).mp hdc2
          have r1 : ¬ (48 ≤ a0.toNat ∧ a0.toNat ≤ 57) := by
            intro hr
            rw [(isDigitCh_iff a0).mpr hr] at hda2
            cases hda2
          apply lexCmp_lt_head
          omega
      | none =>
        rw [compareGroups_else b c (Or.inr hc)] at h2
        exact lexCmp_trans _ _ _ h1 h2
    | none =>
      rw [compareGroups_else b c (Or.inl hb)] at h2
      exact lexCmp_trans _ _ _ h1 h2

instance : IsTotal AdGroup groupLe := ⟨groupLe_total⟩

instance : IsTrans AdGroup groupLe := ⟨groupLe_trans⟩

/-- Group with no assets, giving the empty sort key. -/
def gC3empty : AdGroup :=
  { id := "ge", ad_number := 1, campaign := "", product := "",
    format_token := "IMG", angle := "", hook := "", creator := "",
    offer := false, date := "", assets := [] }

/-- Group whose first asset name has no leading digits. -/
def gC3alpha : AdGroup :=
  { id := "ga", ad_number := 2, campaign := "", product := "",
    format_token := "IMG", angle := "", hook := "", creator := "",
    offer := false, date := "",
    assets := [{ asset := { id := "xa", name := "abc.mp4", asset_type := "IMG" },
                 placement := "feed" }] }

/-- Group whose first asset name is 9_b.mp4. -/
def gC3n9 : AdGroup :=
  { id := "g9", ad_number := 3, campaign := "", product := "",
    format_token := "VID", angle := "", hook := "", creator := "",
    offer := false, date := "",
    assets := [{ asset := { id := "x9", name := "9_b.mp4", asset_type := "VID" },
                 placement := "feed" }] }

/-- Group whose first asset name is 12_a.mp4. -/
def gC3n12 : AdGroup :=
  { id := "g12", ad_number := 4, campaign := "", product := "",
    format_token := "VID", angle := "", hook := "", creator := "",
    offer := false, date := "",
    assets := [{ asset := { id := "x12", name := "12_a.mp4", asset_type := "VID" },
                 placement := "feed" }] }

/-- C3 counterexample: a group with no assets carries the empty sort
key, and the alphabetic fallback places it first, not last, among the
groups lacking a leading number. -/
theorem c3_counterexample :
    gC3empty.assets = [] ∧
    extractNumber (getFirstFilename gC3alpha) = none ∧
    extractNumber (getFirstFilename gC3empty) = none ∧
    sortGroups [gC3alpha, gC3empty] = [gC3empty, gC3alpha] := by decide

/-- C3 (amended): sortGroups permutes its input and orders it by the
comparator that compares leading numbers numerically when both
first-asset names have one and otherwise compares the full names
lexicographically, under which a group with no assets sorts first
among the groups lacking a leading number; names 9_b.mp4 and 12_a.mp4
sort with 9_b.mp4 first. -/
theorem c3_amended_theorem :
    (∀ gs : List AdGroup, (sortGroups gs).Perm gs ∧ List.Sorted groupLe (sortGroups gs)) ∧
    sortGroups [gC3n12, gC3n9] = [gC3n9, gC3n12] ∧
    sortGroups [gC3alpha, gC3empty] = [gC3empty, gC3alpha] := by
  refine ⟨fun gs => ⟨List.perm_insertionSort _ _, List.sorted_insertionSort _ _⟩, by decide, by decide⟩

/-- Requests the client can issue, as the API client shapes them. -/
inductive ApiRequest where
  | updateGroup (groupId : String) (updates : List (String × String))
  | updateAsset (groupId : String) (assetId : String)
  | regroup (assetId : String) (targetGroupId : Option String)
  | renumber (startNumber : Int)
  | getGroups
  deriving DecidableEq

/-- Model of the authoritative store as the client observes it through
responses: the snapshot served by the groups read, and the outcome of
each mutation endpoint. -/
structure StoreModel where
  snapshot : GroupedAssets
  updateGroupResult : String → Except String AdGroup
  updateAssetResult : String → String → Except String ProcessedAsset
  regroupResult : String → Option String → Except String GroupedAssets
  renumberOk : Int → Bool

/-- Model of handleGroupUpdate of ReviewPage: issue the group update
and on success re-read the snapshot and display it. The first
component is the request trace, the second the data the page displays
afterwards, none when the displayed state is left unchanged. -/
def handleGroupUpdate (st : StoreModel) (groupId : String) (updates : List (String × String)) :
    List ApiRequest × Option GroupedAssets :=
  match st.updateGroupResult groupId with
  | .error _ => ([ApiRequest.updateGroup groupId updates], none)
  | .ok _ => ([ApiRequest.updateGroup groupId updates, ApiRequest.getGroups], some st.snapshot)

/-- Model of handleAssetUpdate of ReviewPage: issue the asset update
and on success re-read the snapshot and display it. -/
def handleAssetUpdate (st : StoreModel) (groupId assetId : String) :
    List ApiRequest × Option GroupedAssets :=
  match st.updateAssetResult groupId assetId with
  | .error _ => ([ApiRequest.updateAsset groupId assetId], none)
  | .ok _ => ([ApiRequest.updateAsset groupId assetId, ApiRequest.getGroups], some st.snapshot)

/-- Model of handleRenumber of ReviewPage: issue the renumber request
and on success re-read the snapshot and display it. -/
def handleRenumber (st : StoreModel) (startNumber : Int) :
    List ApiRequest × Option GroupedAssets :=
  if st.renumberOk startNumber then
    ([ApiRequest.renumber startNumber, ApiRequest.getGroups], some st.snapshot)
  else ([ApiRequest.renumber startNumber], none)

/-- Model of handleRegroupAsset of ReviewPage: issue the regroup
request alone and display the grouped-assets payload of its own
response, with no follow-up groups read. -/
def handleRegroupAsset (st : StoreModel) (assetId : String) (target : Option String) :
    List ApiRequest × Option GroupedAssets :=
  match st.regroupResult assetId target with
  | .error _ => ([ApiRequest.regroup assetId target], none)
  | .ok snap => ([ApiRequest.regroup assetId target], some snap)

/-- Tests whether an Except value is the error case. -/
def isErrE {ε α : Type} : Except ε α → Bool
  | .error _ => true
  | .ok _ => false

/-- Error payload of an Except value, when present. -/
def errOf {ε α : Type} : Except ε α → Option ε
  | .error e => some e
  | .ok _ => none

/-- Model of the loop of handleBulkApply: one group update per group in
order, stopping at the first failure; returns the issued requests and
the error of the failed update when one occurred. -/
def bulkLoop (upd : String → Except String AdGroup) (field value : String) :
    List AdGroup → List ApiRequest × Option String
  | [] => ([], none)
  | g :: rest =>
    match upd g.id with
    | .error e => ([ApiRequest.updateGroup g.id [(field, value)]], some e)
    | .ok _ =>
      let r := bulkLoop upd field value rest
      (ApiRequest.updateGroup g.id [(field, value)] :: r.1, r.2)

/-- Model of handleBulkApply of ReviewPage: run the sequential loop
over the currently displayed groups; on success re-read and display
the snapshot, on failure stop, leave the display unchanged and surface
only the error of the failed update. -/
def handleBulkApply (st : StoreModel) (data : GroupedAssets) (field value : String) :
    List ApiRequest × Option GroupedAssets × Option String :=
  match bulkLoop st.updateGroupResult field value data.groups with
  | (tr, none) => (tr ++ [ApiRequest.getGroups], some st.snapshot, none)
  | (tr, some e) => (tr, none, some e)

/-- Placeholder group value returned by the concrete stores of the
protocol claims. -/
def dummyGroup : AdGroup :=
  { id := "d", ad_number := 1, campaign := "", product := "",
    format_token := "IMG", angle := "", hook := "", creator := "",
    offer := false, date := "", assets := [] }

/-- Placeholder asset value returned by the concrete stores of the
protocol claims. -/
def dummyAsset : ProcessedAsset :=
  { asset := { id := "da", name := "d.png", asset_type := "IMG" }, placement := "feed" }

/-- Empty snapshot served by the concrete stores on the groups read. -/
def snapEmpty : GroupedAssets := { groups := [], ungrouped := [] }

/-- Snapshot the concrete store of claim C4 returns from the regroup
mutation itself, different from the snapshot the groups read serves. -/
def snapC4b : GroupedAssets :=
  { groups := [{ id := "gn", ad_number := 1, campaign := "", product := "",
                 format_token := "IMG", angle := "", hook := "", creator := "",
                 offer := false, date := "",
                 assets := [{ asset := { id := "a1", name := "x.png", asset_type := "IMG" },
                              placement := "feed" }] }],
    ungrouped := [] }

/-- Concrete store for the protocol claims: every mutation succeeds,
and the regroup response carries a snapshot that differs from the one
the groups read serves. -/
def stC4 : StoreModel :=
  { snapshot := snapEmpty,
    updateGroupResult := fun _ => Except.ok dummyGroup,
    updateAssetResult := fun _ _ => Except.ok dummyAsset,
    regroupResult := fun _ _ => Except.ok snapC4b,
    renumberOk := fun _ => true }

/-- C4 counterexample: the regroup handler issues no groups read and
displays the snapshot carried by the regroup response itself, which
differs from the snapshot a follow-up read would have returned, so the
regroup mutation and the snapshot read are one combined round trip. -/
theorem c4_counterexample :
    (handleRegroupAsset stC4 "a1" none).1 = [ApiRequest.regroup "a1" none] ∧
    ApiRequest.getGroups ∉ (handleRegroupAsset stC4 "a1" none).1 ∧
    (handleRegroupAsset stC4 "a1" none).2 = some snapC4b ∧
    snapC4b ≠ stC4.snapshot := by decide

/-- C4 (amended): every successful mutation except regroup is followed
by a separate groups read whose response is what the page then
displays, and the display is never patched from the mutation response;
the successful regroup instead issues a single request and displays
the full snapshot carried in the regroup response itself. -/
theorem c4_amended_theorem :
    (∀ (st : StoreModel) (gid : String) (upd : List (String × String)) (g : AdGroup),
      st.updateGroupResult gid = Except.ok g →
      handleGroupUpdate st gid upd =
        ([ApiRequest.updateGroup gid upd, ApiRequest.getGroups], some st.snapshot)) ∧
    (∀ (st : StoreModel) (gid aid : String) (a : ProcessedAsset),
      st.updateAssetResult gid aid = Except.ok a →
      handleAssetUpdate st gid aid =
        ([ApiRequest.updateAsset gid aid, ApiRequest.getGroups], some st.snapshot)) ∧
    (∀ (st : StoreModel) (n : Int), st.renumberOk n = true →
      handleRenumber st n = ([ApiRequest.renumber n, ApiRequest.getGroups], some st.snapshot)) ∧
    (∀ (st : StoreModel) (data : GroupedAssets) (f v : String),
      (bulkLoop st.updateGroupResult f v data.groups).2 = none →
      handleBulkApply st data f v =
        ((bulkLoop st.updateGroupResult f v data.groups).1 ++ [ApiRequest.getGroups],
          some st.snapshot, none)) ∧
    (∀ (st : StoreModel) (aid : String) (tgt : Option String) (snap : GroupedAssets),
      st.regroupResult aid tgt = Except.ok snap →
      handleRegroupAsset st aid tgt = ([ApiRequest.regroup aid tgt], some snap)) := by
  refine ⟨?_, ?_, ?_, ?_, ?_⟩
  · intro st gid upd g h
    unfold handleGroupUpdate
    rw [h]
  · intro st gid aid a h
    unfold handleAssetUpdate
    rw [h]
  · intro st n h
    unfold handleRenumber
    rw [if_pos h]
  · intro st data f v h
    unfold handleBulkApply
    rcases hbl : bulkLoop st.updateGroupResult f v data.groups with ⟨tr, err⟩
    rw [hbl] at h
    cases err with
    | none => rfl
    | some e => cases h
  · intro st aid tgt snap h
    unfold handleRegroupAsset
    rw [h]

/-- C4 witness: all five branches of the amended statement evaluated
on the concrete store. -/
theorem c4_amended_witness :
    handleGroupUpdate stC4 "g1" [("campaign", "X")] =
      ([ApiRequest.updateGroup "g1" [("campaign", "X")], ApiRequest.getGroups],
        some stC4.snapshot) ∧
    handleAssetUpdate stC4 "g1" "a1" =
      ([ApiRequest.updateAsset "g1" "a1", ApiRequest.getGroups], some stC4.snapshot) ∧
    handleRenumber stC4 5 = ([ApiRequest.renumber 5, ApiRequest.getGroups], some stC4.snapshot) ∧
    handleBulkApply stC4 snapC4b "campaign" "X" =
      ((bulkLoop stC4.updateGroupResult "campaign" "X" snapC4b.groups).1 ++ [ApiRequest.getGroups],
        some stC4.snapshot, none) ∧
    handleRegroupAsset stC4 "a1" none = ([ApiRequest.regroup "a1" none], some snapC4b) :=
  ⟨c4_amended_theorem.1 stC4 "g1" [("campaign", "X")] dummyGroup rfl,
   c4_amended_theorem.2.1 stC4 "g1" "a1" dummyAsset rfl,
   c4_amended_theorem.2.2.1 stC4 5 rfl,
   c4_amended_theorem.2.2.2.1 stC4 snapC4b "campaign" "X" rfl,
   c4_amended_theorem.2.2.2.2 stC4 "a1" none snapC4b rfl⟩

/-- First group the bulk-apply counterexample iterates over. -/
def gC5A : AdGroup :=
  { id := "gA", ad_number := 1, campaign := "", product := "",
    format_token := "IMG", angle := "", hook := "", creator := "",
    offer := false, date := "", assets := [] }

/-- Second group the bulk-apply counterexample iterates over. -/
def gC5B : AdGroup :=
  { id := "gB", ad_number := 2, campaign := "", product := "",
    format_token := "IMG", angle := "", hook := "", creator := "",
    offer := false, date := "", assets := [] }

/-- Displayed data holding the two groups of the bulk counterexample. -/
def bulkGroupsC5 : GroupedAssets := { groups := [gC5A, gC5B], ungrouped := [] }

/-- Store whose group update fails on the first group. -/
def stC5fail0 : StoreModel :=
  { snapshot := snapEmpty,
    updateGroupResult := fun gid =>
      if gid = "gA" then Except.error "boom" else Except.ok dummyGroup,
    updateAssetResult := fun _ _ => Except.ok dummyAsset,
    regroupResult := fun _ _ => Except.ok snapEmpty,
    renumberOk := fun _ => true }

/-- Store whose group update fails on the second group only. -/
def stC5fail1 : StoreModel :=
  { snapshot := snapEmpty,
    updateGroupResult := fun gid =>
      if gid = "gB" then Except.error "boom" else Except.ok dummyGroup,
    updateAssetResult := fun _ _ => Except.ok dummyAsset,
    regroupResult := fun _ _ => Except.ok snapEmpty,
    renumberOk := fun _ => true }

/-- C5 counterexample: a failure at the first group and a failure at
the second group surface exactly the same client-visible outcome, the
error string with an unchanged display, while the number of groups
successfully updated before the failure differs, so the surfaced error
does not carry that count. -/
theorem c5_counterexample :
    (handleBulkApply stC5fail0 bulkGroupsC5 "campaign" "X").1.length = 1 ∧
    (handleBulkApply stC5fail1 bulkGroupsC5 "campaign" "X").1.length = 2 ∧
    (handleBulkApply stC5fail0 bulkGroupsC5 "campaign" "X").2 =
      (handleBulkApply stC5fail1 bulkGroupsC5 "campaign" "X").2 ∧
    (handleBulkApply stC5fail0 bulkGroupsC5 "campaign" "X").2.2 = some "boom" := by decide

/-- C5 (amended): the bulk apply is a sequential loop of single-group
updates whose issued requests are exactly the groups up to and
including the first failing one, so the prefix before the failure is
updated and the remainder is not attempted; the surfaced value is the
error of the first failing update, without a count of the successes,
and on failure the final groups read is skipped and the display left
unchanged. -/
theorem c5_amended_theorem :
    (∀ (upd : String → Except String AdGroup) (f v : String) (gs : List AdGroup),
      (bulkLoop upd f v gs).1 =
        (gs.take (gs.findIdx (fun g => isErrE (upd g.id)) + 1)).map
          (fun g => ApiRequest.updateGroup g.id [(f, v)]) ∧
      (bulkLoop upd f v gs).2 =
        (gs[gs.findIdx (fun g => isErrE (upd g.id))]?).bind (fun g => errOf (upd g.id))) ∧
    (∀ (st : StoreModel) (data : GroupedAssets) (f v : String) (e : String),
      (bulkLoop st.updateGroupResult f v data.groups).2 = some e →
      handleBulkApply st data f v =
        ((bulkLoop st.updateGroupResult f v data.groups).1, none, some e)) := by
  constructor
  · intro upd f v gs
    induction gs with
    | nil => simp [bulkLoop]
    | cons g rest ih =>
      cases hu : upd g.id with
      | error e =>
        have hfi : List.findIdx (fun g => isErrE (upd g.id)) (g :: rest) = 0 := by
          rw [List.findIdx_cons]
          rw [show isErrE (upd g.id) = true from by rw [hu]; rfl]
          rfl
        rw [hfi]
        simp only [bulkLoop, hu, List.take_succ_cons, List.take_zero, List.map_cons,
          List.map_nil, List.getElem?_cons_zero]
        constructor
        · trivial
        · simp [errOf, hu]
      | ok gv =>
        have hfi : List.findIdx (fun g => isErrE (upd g.id)) (g :: rest) =
            List.findIdx (fun g => isErrE (upd g.id)) rest + 1 := by
          rw [List.findIdx_cons]
          rw [show isErrE (upd g.id) = false from by rw [hu]; rfl]
          rfl
        rw [hfi]
        simp only [bulkLoop, hu, List.take_succ_cons, List.map_cons, List.getElem?_cons_succ]
        exact ⟨congrArg (ApiRequest.updateGroup g.id [(f, v)] :: ·) ih.1, ih.2⟩
  · intro st data f v e h
    unfold handleBulkApply
    rcases hbl : bulkLoop st.updateGroupResult f v data.groups with ⟨tr, err⟩
    rw [hbl] at h
    cases err with
    | none => cases h
    | some e2 =>
      have he : e2 = e := by
        simpa using h
      rw [he]

/-- C5 witness: the characterization evaluated on the store that fails
at the second group. -/
theorem c5_amended_witness :
    ((bulkLoop stC5fail1.updateGroupResult "campaign" "X" bulkGroupsC5.groups).1 =
      (bulkGroupsC5.groups.take
        (bulkGroupsC5.groups.findIdx
          (fun g => isErrE (stC5fail1.updateGroupResult g.id)) + 1)).map
        (fun g => ApiRequest.updateGroup g.id [("campaign", "X")]) ∧
      (bulkLoop stC5fail1.updateGroupResult "campaign" "X" bulkGroupsC5.groups).2 =
        (bulkGroupsC5.groups[bulkGroupsC5.groups.findIdx
          (fun g => isErrE (stC5fail1.updateGroupResult g.id))]?).bind
          (fun g => errOf (stC5fail1.updateGroupResult g.id))) ∧
    handleBulkApply stC5fail1 bulkGroupsC5 "campaign" "X" =
      ((bulkLoop stC5fail1.updateGroupResult "campaign" "X" bulkGroupsC5.groups).1,
        none, some "boom") :=
  ⟨c5_amended_theorem.1 stC5fail1.updateGroupResult "campaign" "X" bulkGroupsC5.groups,
   c5_amended_theorem.2 stC5fail1 bulkGroupsC5 "campaign" "X" "boom" (by decide)⟩

/-- Model of the JS parseInt applied to the text of the start-number
input: an optional sign followed by a leading run of ASCII digits,
none standing for NaN when no digit follows. -/
def parseIntJS (s : String) : Option Int :=
  match s.data with
  | '-' :: rest =>
    match rest.takeWhile isDigitCh with
    | [] => none
    | ds => some (-(digitsVal ds : Int))
  | '+' :: rest =>
    match rest.takeWhile isDigitCh with
    | [] => none
    | ds => some ((digitsVal ds : Int))
  | l =>
    match l.takeWhile isDigitCh with
    | [] => none
    | ds => some ((digitsVal ds : Int))

/-- Model of the change handler of the start-number input of
BulkApplyToolbar: parseInt of the typed text with the or-fallback to
one, which replaces exactly NaN and zero. -/
def toolbarStartNumber (typed : String) : Int :=
  match parseIntJS typed with
  | none => 1
  | some n => if n = 0 then 1 else n

/-- Store used to evaluate the renumber path of claim C6. -/
def stC6 : StoreModel :=
  { snapshot := snapEmpty,
    updateGroupResult := fun _ => Except.ok dummyGroup,
    updateAssetResult := fun _ _ => Except.ok dummyAsset,
    regroupResult := fun _ _ => Except.ok snapEmpty,
    renumberOk := fun _ => true }

/-- C6: evaluation of the renumber path at the failing input: typing
-5 stores -5 in the toolbar state, since the or-fallback replaces only
NaN and zero, and the renumber request is then issued with the
non-positive start number -5 rather than the coerced 1 the claim
requires; typing 0 or a non-number is coerced to 1 as the claim
states. -/
theorem c6_code_bug_theorem :
    toolbarStartNumber "-5" = -5 ∧
    ¬ (0 < toolbarStartNumber "-5") ∧
    (handleRenumber stC6 (toolbarStartNumber "-5")).1 =
      [ApiRequest.renumber (-5), ApiRequest.getGroups] ∧
    toolbarStartNumber "0" = 1 ∧
    toolbarStartNumber "abc" = 1 ∧
    toolbarStartNumber "7" = 7 := by decide

/-- Row of the table projection: one asset together with its owning
group and its index inside that group. -/
structure RowInfo where
  asset : ProcessedAsset
  group : AdGroup
  assetIndex : Nat
  deriving DecidableEq

/-- Rows contributed by one group from a given starting index: the
model of the assets.map of AssetTable with its index argument. -/
def rowsAux (g : AdGroup) : Nat → List ProcessedAsset → List RowInfo
  | _, [] => []
  | i, a :: rest => { asset := a, group := g, assetIndex := i } :: rowsAux g (i + 1) rest

/-- Rows of one group, indices starting at zero. -/
def rowsOfGroup (g : AdGroup) : List RowInfo := rowsAux g 0 g.assets

/-- Model of the flatMap of AssetTable building one row per group and
asset pair, in group order and internal asset order. -/
def tableRows (groups : List AdGroup) : List RowInfo := groups.flatMap rowsOfGroup

/-- Model of the seen-groups pass of the table body: each row is
decorated with whether its group id was not seen on an earlier row,
and with the asset count of its group used as the row span. -/
def renderFlags : List String → List RowInfo → List (RowInfo × Bool × Nat)
  | _, [] => []
  | seen, r :: rest =>
    (r, !(decide (r.group.id ∈ seen)), r.group.assets.length) ::
      renderFlags (r.group.id :: seen) rest

lemma rowsAux_map_asset (g : AdGroup) : ∀ (i : Nat) (as : List ProcessedAsset),
    (rowsAux g i as).map RowInfo.asset = as := by
  intro i as
  induction as generalizing i with
  | nil => rfl
  | cons a rest ih => simp [rowsAux, ih]

lemma renderFlags_congr : ∀ (rows : List RowInfo) (s1 s2 : List String),
    (∀ x, x ∈ s1 ↔ x ∈ s2) → renderFlags s1 rows = renderFlags s2 rows := by
  intro rows
  induction rows with
  | nil => intro s1 s2 _; rfl
  | cons r rest ih =>
    intro s1 s2 h
    simp only [renderFlags]
    have hd : decide (r.group.id ∈ s1) = decide (r.group.id ∈ s2) := by
      by_cases hm : r.group.id ∈ s1
      · rw [decide_eq_true hm, decide_eq_true ((h _).mp hm)]
      · rw [decide_eq_false hm, decide_eq_false (fun hx => hm ((h _).mpr hx))]
    rw [hd]
    rw [ih (r.group.id :: s1) (r.group.id :: s2) (by intro x; simp [h x])]

lemma renderFlags_append_seen (g : AdGroup) :
    ∀ (as : List ProcessedAsset) (i : Nat) (seen : List String) (more : List RowInfo),
      g.id ∈ seen →
      renderFlags seen (rowsAux g i as ++ more) =
        (rowsAux g i as).map (fun r => (r, false, r.group.assets.length)) ++
          renderFlags seen more := by
  intro as
  induction as with
  | nil => intro i seen more _; rfl
  | cons a rest ih =>
    intro i seen more hmem
    simp only [rowsAux, List.cons_append, renderFlags, List.map_cons, List.append_eq]
    rw [show decide (g.id ∈ seen) = true from decide_eq_true hmem]
    rw [ih (i + 1) (g.id :: seen) more (by simp)]
    rw [renderFlags_congr more (g.id :: seen) seen ?hiff]
    case hiff =>
      intro x
      constructor
      · intro hx
        rcases List.mem_cons.mp hx with h1 | h1
        · exact h1 ▸ hmem
        · exact h1
      · exact List.mem_cons_of_mem _
    rfl

lemma rowsAux_map_flags (g : AdGroup) : ∀ (as : List ProcessedAsset) (i : Nat), 0 < i →
    (rowsAux g i as).map (fun r => (r, false, r.group.assets.length)) =
      (rowsAux g i as).map (fun r => (r, decide (r.assetIndex = 0), r.group.assets.length)) := by
  intro as
  induction as with
  | nil => intro i _; rfl
  | cons a rest ih =>
    intro i hi
    simp only [rowsAux, List.map_cons]
    rw [show decide (({ asset := a, group := g, assetIndex := i } : RowInfo).assetIndex = 0)
      = false from decide_eq_false (by simp; omega)]
    rw [ih (i + 1) (by omega)]

lemma renderFlags_flatMap : ∀ (groups : List AdGroup) (seen : List String),
    (∀ g ∈ groups, g.id ∉ seen) → (groups.map AdGroup.id).Nodup →
    renderFlags seen (groups.flatMap rowsOfGroup) =
      (groups.flatMap rowsOfGroup).map
        (fun r => (r, decide (r.assetIndex = 0), r.group.assets.length)) := by
  intro groups
  induction groups with
  | nil => intro seen _ _; rfl
  | cons g rest ih =>
    intro seen hseen hnd
    have hnd2 : (rest.map AdGroup.id).Nodup := (List.nodup_cons.mp hnd).2
    have hgid : g.id ∉ rest.map AdGroup.id := (List.nodup_cons.mp hnd).1
    have hrest_ne : ∀ g' ∈ rest, g'.id ≠ g.id := by
      intro g' hg' he
      exact hgid (he ▸ List.mem_map_of_mem AdGroup.id hg')
    simp only [List.flatMap_cons]
    cases hassets : g.assets with
    | nil =>
      have h0 : rowsOfGroup g = [] := by
        simp [rowsOfGroup, hassets, rowsAux]
      rw [h0]
      simp only [List.nil_append]
      exact ih seen (fun g' hg' => hseen g' (List.mem_cons_of_mem _ hg')) hnd2
    | cons a rest2 =>
      have h0 : rowsOfGroup g = { asset := a, group := g, assetIndex := 0 } :: rowsAux g 1 rest2 := by
        simp [rowsOfGroup, hassets, rowsAux]
      rw [h0]
      simp only [List.cons_append, renderFlags, List.map_cons, List.map_append, List.append_eq]
      rw [show decide (g.id ∈ seen) = false from
        decide_eq_false (hseen g (List.mem_cons_self _ _))]
      rw [renderFlags_append_seen g rest2 1 (g.id :: seen) _ (by simp)]
      rw [rowsAux_map_flags g rest2 1 (by omega)]
      rw [ih (g.id :: seen) ?hseen2 hnd2]
      case hseen2 =>
        intro g' hg'
        intro hx
        rcases List.mem_cons.mp hx with h1 | h1
        · exact hrest_ne g' hg' h1
        · exact hseen g' (List.mem_cons_of_mem _ hg') h1
      rfl

lemma rowsAux_filter_self (g : AdGroup) : ∀ (i : Nat) (as : List ProcessedAsset),
    (rowsAux g i as).filter (fun r => r.group.id == g.id) = rowsAux g i as := by
  intro i as
  induction as generalizing i with
  | nil => rfl
  | cons a rest ih =>
    simp only [rowsAux, List.filter_cons]
    rw [if_pos (by simp)]
    rw [ih (i + 1)]

lemma rowsAux_filter_other (g : AdGroup) (gid : String) (hne : g.id ≠ gid) :
    ∀ (i : Nat) (as : List ProcessedAsset),
      (rowsAux g i as).filter (fun r => r.group.id == gid) = [] := by
  intro i as
  induction as generalizing i with
  | nil => rfl
  | cons a rest ih =>
    simp only [rowsAux, List.filter_cons]
    rw [if_neg (by simp [hne])]
    exact ih (i + 1)

lemma flatMap_filter_other : ∀ (groups : List AdGroup) (gid : String),
    (∀ g' ∈ groups, g'.id ≠ gid) →
    (groups.flatMap rowsOfGroup).filter (fun r => r.group.id == gid) = [] := by
  intro groups
  induction groups with
  | nil => intro gid _; rfl
  | cons g rest ih =>
    intro gid h
    simp only [List.flatMap_cons, List.filter_append]
    rw [show rowsOfGroup g = rowsAux g 0 g.assets from rfl]
    rw [rowsAux_filter_other g gid (h g (List.mem_cons_self _ _)) 0 g.assets]
    rw [ih gid (fun g' hg' => h g' (List.mem_cons_of_mem _ hg'))]
    rfl

lemma tableRows_filter : ∀ (groups : List AdGroup), (groups.map AdGroup.id).Nodup →
    ∀ g ∈ groups, (tableRows groups).filter (fun r => r.group.id == g.id) = rowsOfGroup g := by
  intro groups
  induction groups with
  | nil =>
    intro _ g hg
    cases hg
  | cons h rest ih =>
    intro hnd g hg
    have hnd2 : (rest.map AdGroup.id).Nodup := (List.nodup_cons.mp hnd).2
    have hgid : h.id ∉ rest.map AdGroup.id := (List.nodup_cons.mp hnd).1
    simp only [tableRows, List.flatMap_cons, List.filter_append]
    rcases List.mem_cons.mp hg with he | hg2
    · subst he
      rw [show rowsOfGroup g = rowsAux g 0 g.assets from rfl]
      rw [rowsAux_filter_self g 0 g.assets]
      rw [flatMap_filter_other rest g.id ?hne]
      case hne =>
        intro g' hg' he2
        exact hgid (he2 ▸ List.mem_map_of_mem AdGroup.id hg')
      simp [rowsOfGroup]
    · have hne : h.id ≠ g.id := by
        intro he2
        exact hgid (he2 ▸ List.mem_map_of_mem AdGroup.id hg2)
      rw [show rowsOfGroup h = rowsAux h 0 h.assets from rfl]
      rw [rowsAux_filter_other h g.id hne 0 h.assets]
      have := ih hnd2 g hg2
      simp only [tableRows] at this
      rw [List.nil_append, this]

lemma tableRows_map_asset : ∀ groups : List AdGroup,
    (tableRows groups).map RowInfo.asset = groups.flatMap AdGroup.assets := by
  intro groups
  induction groups with
  | nil => rfl
  | cons g rest ih =>
    simp only [tableRows, List.flatMap_cons, List.map_append]
    simp only [tableRows] at ih
    rw [ih, show rowsOfGroup g = rowsAux g 0 g.assets from rfl, rowsAux_map_asset g 0 g.assets]

/-- C9: for a sorted group sequence with pairwise distinct ids, the
table projection yields one row per group and asset pair, in sorted
group order and internal asset order (its per-row assets are exactly
the concatenation of the asset lists, and restricting the rows to one
group id recovers exactly that group's rows in order); the seen-set
pass marks a row exactly when it is the first row of its group, and
attaches the group's asset count as the row span. -/
theorem c9_theorem :
    ∀ groups : List AdGroup, (groups.map AdGroup.id).Nodup →
      (tableRows groups).map RowInfo.asset = groups.flatMap AdGroup.assets ∧
      (∀ g ∈ groups, (tableRows groups).filter (fun r => r.group.id == g.id) = rowsOfGroup g) ∧
      renderFlags [] (tableRows groups) =
        (tableRows groups).map
          (fun r => (r, decide (r.assetIndex = 0), r.group.assets.length)) := by
  intro groups hnd
  refine ⟨tableRows_map_asset groups, tableRows_filter groups hnd, ?_⟩
  exact renderFlags_flatMap groups [] (by intro g _ hx; cases hx) hnd

/-- Two-asset group of the projection witness. -/
def gC9a : AdGroup :=
  { id := "p1", ad_number := 1, campaign := "", product := "",
    format_token := "IMG", angle := "", hook := "", creator := "",
    offer := false, date := "",
    assets := [{ asset := { id := "w1", name := "1_a.png", asset_type := "IMG" },
                 placement := "feed" },
               { asset := { id := "w2", name := "1_b.png", asset_type := "IMG" },
                 placement := "story" }] }

/-- One-asset group of the projection witness. -/
def gC9b : AdGroup :=
  { id := "p2", ad_number := 2, campaign := "", product := "",
    format_token := "VID", angle := "", hook := "", creator := "",
    offer := false, date := "",
    assets := [{ asset := { id := "w3", name := "2_a.mp4", asset_type := "VID" },
                 placement := "feed" }] }

/-- C9 witness: the projection statement evaluated on a concrete
two-group sequence with distinct ids. -/
theorem c9_witness :
    (tableRows [gC9a, gC9b]).map RowInfo.asset = [gC9a, gC9b].flatMap AdGroup.assets ∧
    (∀ g ∈ [gC9a, gC9b],
      (tableRows [gC9a, gC9b]).filter (fun r => r.group.id == g.id) = rowsOfGroup g) ∧
    renderFlags [] (tableRows [gC9a, gC9b]) =
      (tableRows [gC9a, gC9b]).map
        (fun r => (r, decide (r.assetIndex = 0), r.group.assets.length)) :=
  c9_theorem [gC9a, gC9b] (by decide)

/-- Model of the option values of the move select of AssetTable: the
empty placeholder, one option per group other than the row's own, and
the new-group option. -/
def moveOptionValues (groups : List AdGroup) (current : AdGroup) : List String :=
  [""] ++ (groups.filter (fun g => g.id != current.id)).map AdGroup.id ++ ["new"]

/-- Model of the change handler of the move select: the new value
dispatches a regroup to a fresh group, any other non-empty value a
regroup to the group with that id, and the empty placeholder nothing. -/
def onMoveChange (value : String) : Option (Option String) :=
  if value = "new" then some none
  else if value ≠ "" then some (some value)
  else none

/-- Regroup targets the select can dispatch: the dispatch results over
its offered option values. -/
def offeredTargets (groups : List AdGroup) (current : AdGroup) : List (Option String) :=
  (moveOptionValues groups current).filterMap onMoveChange

/-- C10: when no group id collides with the reserved empty and new
option values, the targets the move select can dispatch are exactly
the new-group target plus the ids of the groups other than the row's
own; and any dispatch from an offered value never targets the row's
own group. -/
theorem c10_theorem :
    ∀ (groups : List AdGroup) (current : AdGroup),
      (∀ g ∈ groups, g.id ≠ "" ∧ g.id ≠ "new") →
      (∀ t : Option String, t ∈ offeredTargets groups current ↔
        (t = none ∨ ∃ g ∈ groups, g.id ≠ current.id ∧ t = some g.id)) ∧
      (∀ v ∈ moveOptionValues groups current, ∀ t : Option String,
        onMoveChange v = some t → t ≠ some current.id) := by
  intro groups current hids
  constructor
  · intro t
    constructor
    · intro ht
      obtain ⟨v, hv, hfv⟩ := List.mem_filterMap.mp ht
      rcases List.mem_append.mp hv with hv1 | hv2
      · rcases List.mem_append.mp hv1 with hv0 | hvm
        · have he : v = "" := by simpa using hv0
          rw [he] at hfv
          simp [onMoveChange] at hfv
        · obtain ⟨g, hg, hgv⟩ := List.mem_map.mp hvm
          have hgmem : g ∈ groups := (List.mem_filter.mp hg).1
          have hgne : g.id ≠ current.id := bne_iff_ne.mp (List.mem_filter.mp hg).2
          have hid1 : g.id ≠ "" := (hids g hgmem).1
          have hid2 : g.id ≠ "new" := (hids g hgmem).2
          rw [← hgv] at hfv
          rw [onMoveChange, if_neg hid2, if_pos hid1] at hfv
          right
          exact ⟨g, hgmem, hgne, by injection hfv with h2; exact h2.symm⟩
      · have he : v = "new" := by simpa using hv2
        rw [he] at hfv
        rw [onMoveChange, if_pos rfl] at hfv
        left
        injection hfv with h2
        exact h2.symm
    · intro ht
      rcases ht with rfl | ⟨g, hgmem, hgne, rfl⟩
      · refine List.mem_filterMap.mpr ⟨"new", ?_, by rw [onMoveChange, if_pos rfl]⟩
        exact List.mem_append.mpr (Or.inr (by simp))
      · refine List.mem_filterMap.mpr ⟨g.id, ?_, ?_⟩
        · refine List.mem_append.mpr (Or.inl (List.mem_append.mpr (Or.inr ?_)))
          exact List.mem_map.mpr ⟨g, List.mem_filter.mpr ⟨hgmem, bne_iff_ne.mpr hgne⟩, rfl⟩
        · rw [onMoveChange, if_neg (hids g hgmem).2, if_pos (hids g hgmem).1]
  · intro v hv t hvt he
    rcases List.mem_append.mp hv with hv1 | hv2
    · rcases List.mem_append.mp hv1 with hv0 | hvm
      · have hve : v = "" := by simpa using hv0
        rw [hve] at hvt
        simp [onMoveChange] at hvt
      · obtain ⟨g, hg, hgv⟩ := List.mem_map.mp hvm
        have hgne : g.id ≠ current.id := bne_iff_ne.mp (List.mem_filter.mp hg).2
        rw [← hgv] at hvt
        by_cases hnew : g.id = "new"
        · rw [onMoveChange, if_pos hnew] at hvt
          injection hvt with h2
          rw [← h2] at he
          cases he
        · by_cases hemp : g.id = ""
          · rw [onMoveChange, if_neg hnew, if_neg (by simp [hemp])] at hvt
            cases hvt
          · rw [onMoveChange, if_neg hnew, if_pos hemp] at hvt
            injection hvt with h2
            rw [← h2] at he
            injection he with h3
            exact hgne h3
    · have hve : v = "new" := by simpa using hv2
      rw [hve] at hvt
      rw [onMoveChange, if_pos rfl] at hvt
      injection hvt with h2
      rw [← h2] at he
      cases he

/-- First group of the move-select witness, the row's own group. -/
def gC10a : AdGroup :=
  { id := "m1", ad_number := 1, campaign := "", product := "",
    format_token := "IMG", angle := "", hook := "", creator := "",
    offer := false, date := "",
    assets := [{ asset := { id := "v1", name := "a.png", asset_type := "IMG" },
                 placement := "feed" }] }

/-- Second group of the move-select witness. -/
def gC10b : AdGroup :=
  { id := "m2", ad_number := 2, campaign := "", product := "",
    format_token := "VID", angle := "", hook := "", creator := "",
    offer := false, date := "",
    assets := [{ asset := { id := "v2", name := "b.mp4", asset_type := "VID" },
                 placement := "story" }] }

/-- C10 witness: the move-select statement evaluated with two concrete
groups, the first being the row's own. -/
theorem c10_witness :
    (∀ t : Option String, t ∈ offeredTargets [gC10a, gC10b] gC10a ↔
      (t = none ∨ ∃ g ∈ [gC10a, gC10b], g.id ≠ gC10a.id ∧ t = some g.id)) ∧
    (∀ v ∈ moveOptionValues [gC10a, gC10b] gC10a, ∀ t : Option String,
      onMoveChange v = some t → t ≠ some gC10a.id) :=
  c10_theorem [gC10a, gC10b] gC10a (by decide)
